import Mathlib

/-!
Verification development for QuickShelf (src/quickshelf.py), a desktop
file-organizer. The Python class QuickShelf is shallowly embedded:

* Python dicts that are built by inserting keys in iteration order and
  appending to per-key lists are modelled as ordered association lists
  (`List (String × List String)`) together with `addToCategory`, which
  mirrors the `if cat not in categories: categories[cat] = []` /
  `categories[cat].append(file)` idiom.
* `scan_desktop` takes the directory listing as an explicit `files`
  argument (the Python code obtains it from `os.listdir`).  The sklearn
  TfidfVectorizer/KMeans pipeline is an external library; its outcome is
  passed in as `clusterRes : Except String (Nat → Nat)`: `Except.ok labels`
  gives the cluster label `labels i` that KMeans assigned to the i-th file
  (`kmeans.labels_[i]`), and `Except.error e` models the exception the
  library raises on degenerate input (e.g. "empty vocabulary").  The code
  wraps the library call in no try/except, so in the model the error
  propagates out of `scan_desktop` exactly when the branch runs it.
* `organize_files` moves files and logs each move.  The filesystem is
  abstracted by a move oracle `mv : String → Option String` (`none` =
  `shutil.move` succeeded, `some reason` = it raised with that reason);
  the history log is a list of `HistoryRecord`.  Timestamps are `Int`
  instants (`datetime.now()` is passed in as `now`).
* The CSV layer of the history file (`log_action` writing
  `f"{timestamp},{filename},{category},moved"` lines and pandas
  `read_csv` splitting them on commas) is modelled over `List Char` by
  `log_line` / `parse_line` / `parse_history`.
* Preferences: `json.load` / `json.dump` are external; they appear as an
  abstract parse/serialize pair, and the disk file as `Option String`.
-/

/-- One row of `~/.quickshelf/file_history.csv`, at the record level:
timestamp (an abstract `Int` instant), filename, category, and action
(always the literal "moved" when written by `log_action`). -/
structure HistoryRecord where
  timestamp : Int
  filename : String
  category : String
  action : String
deriving DecidableEq, Repr

/-- The `categories` dict-building idiom of `scan_desktop` (lines 70-92):
append `file` to the list stored under key `cat`, creating the key at the
end of the (insertion-ordered) dict when it is absent. -/
def addToCategory (cats : List (String × List String)) (cat : String) (file : String) :
    List (String × List String) :=
  match cats with
  | [] => [(cat, [file])]
  | (c, fs) :: rest =>
      if c = cat then (c, fs ++ [file]) :: rest
      else (c, fs) :: addToCategory rest cat file

/-- QuickShelf.default_categories (lines 23-33), in source order. -/
def default_categories : List (String × List String) :=
  [("Documents", [".pdf", ".doc", ".docx", ".txt", ".rtf"]),
   ("Images", [".jpg", ".jpeg", ".png", ".gif", ".heic"]),
   ("Videos", [".mp4", ".mov", ".avi", ".mkv"]),
   ("Music", [".mp3", ".m4a", ".wav", ".flac"]),
   ("Archives", [".zip", ".rar", ".7z", ".tar", ".gz"]),
   ("Applications", [".app", ".dmg", ".pkg"]),
   ("Spreadsheets", [".xls", ".xlsx", ".csv"]),
   ("Presentations", [".ppt", ".pptx", ".key"]),
   ("Code", [".py", ".js", ".html", ".css", ".json"])]

/-- The extension part of `os.path.splitext(file)[1]` for a plain filename
(no path separators): the suffix starting at the last dot, except that a
basename consisting of leading dots only has no extension. -/
def splitext_ext (s : List Char) : List Char :=
  let afterRev := s.reverse.takeWhile (fun c => c ≠ '.')
  if afterRev.length = s.length then []
  else if (s.take (s.length - afterRev.length - 1)).all (fun c => c = '.') then []
  else '.' :: afterRev.reverse

/-- Python's `str.lower()` restricted to ASCII (all extensions in
`default_categories` are ASCII, so this is faithful for the table lookup). -/
def lowerAscii (s : List Char) : List Char :=
  s.map Char.toLower

/-- The key `ext = os.path.splitext(file)[1].lower()` of line 80. -/
def file_ext (file : String) : String :=
  String.mk (lowerAscii (splitext_ext file.toList))

/-- The inner `for cat, exts in self.default_categories.items(): if ext in
exts: ... break` loop with the `matched` flag (lines 81-92): the first
table entry whose extension list contains `e` wins; otherwise "Others". -/
def firstMatchingCategory : List (String × List String) → String → String
  | [], _ => "Others"
  | (c, exts) :: rest, e => if e ∈ exts then c else firstMatchingCategory rest e

/-- The category that extension-mode assigns to a single filename. -/
def extCategory (file : String) : String :=
  firstMatchingCategory default_categories (file_ext file)

/-- The extension-mode loop of `scan_desktop` (lines 78-92), threading the
`categories` dict through the files in listing order. -/
def extAssign : List String → List (String × List String) → List (String × List String)
  | [], cats => cats
  | f :: fs, cats => extAssign fs (addToCategory cats (extCategory f) f)

/-- Extension-mode categorization of a file listing. -/
def extCategorize (files : List String) : List (String × List String) :=
  extAssign files []

/-- The generic cluster label `f"Category clusters_i+1"` of line 72. -/
def clusterCatName (label : Nat) : String :=
  "Category " ++ toString (label + 1)

/-- The clustering-mode loop of `scan_desktop` (lines 70-75):
`for i, file in enumerate(files)` appends `file` under the name derived
from its KMeans label, threading the index `i` and the dict. -/
def clusterAssign (labels : Nat → Nat) : Nat → List String → List (String × List String) →
    List (String × List String)
  | _, [], cats => cats
  | i, f :: fs, cats =>
      clusterAssign labels (i + 1) fs (addToCategory cats (clusterCatName (labels i)) f)

/-- Clustering-mode categorization given the KMeans label of each index. -/
def clusterCategorize (labels : Nat → Nat) (files : List String) :
    List (String × List String) :=
  clusterAssign labels 0 files []

/-- QuickShelf.scan_desktop (lines 56-94) on the listing `files`.
When `len(files) > 3` the sklearn pipeline runs: its outcome `clusterRes`
is either the label assignment or the exception it raised, and the code
catches nothing, so the error propagates.  Otherwise the extension-based
branch runs and no library call is made. -/
def scan_desktop (clusterRes : Except String (Nat → Nat)) (files : List String) :
    Except String (List (String × List String)) :=
  if files.length > 3 then
    match clusterRes with
    | Except.ok labels => Except.ok (clusterCategorize labels files)
    | Except.error e => Except.error e
  else
    Except.ok (extCategorize files)

/-- Total number of occurrences of `x` across all category lists. -/
def totalCount (cats : List (String × List String)) (x : String) : Nat :=
  (cats.map (fun p => p.2.count x)).sum

/-- Number of occurrences of `x` in the lists of the entries named `c`. -/
def countInCategory (cats : List (String × List String)) (c x : String) : Nat :=
  ((cats.filter (fun p => p.1 == c)).map (fun p => p.2.count x)).sum

theorem totalCount_nil (x : String) : totalCount [] x = 0 := rfl

theorem totalCount_cons (d : String) (fs : List String)
    (rest : List (String × List String)) (x : String) :
    totalCount ((d, fs) :: rest) x = fs.count x + totalCount rest x := by
  simp [totalCount]

theorem totalCount_addToCategory (cats : List (String × List String)) (c f x : String) :
    totalCount (addToCategory cats c f) x = totalCount cats x + if x = f then 1 else 0 := by
  induction cats with
  | nil =>
      rcases eq_or_ne x f with h | h
      · subst h
        simp [addToCategory, totalCount, List.count_singleton]
      · simp [addToCategory, totalCount, List.count_singleton, beq_iff_eq, h, h.symm]
  | cons hd tl ih =>
      obtain ⟨d, fs⟩ := hd
      by_cases hdc : d = c
      · subst hdc
        rcases eq_or_ne x f with h | h
        · subst h
          simp [addToCategory, totalCount_cons, List.count_append, List.count_singleton]
          omega
        · simp [addToCategory, totalCount_cons, List.count_append, List.count_singleton,
            beq_iff_eq, h, h.symm]
      · simp [addToCategory, hdc, totalCount_cons, ih]
        omega

theorem totalCount_extAssign (fs : List String) (cats : List (String × List String))
    (x : String) :
    totalCount (extAssign fs cats) x = totalCount cats x + fs.count x := by
  induction fs generalizing cats with
  | nil => simp [extAssign]
  | cons f fs ih =>
      rcases eq_or_ne x f with h | h
      · subst h
        simp [extAssign, ih, totalCount_addToCategory, List.count_cons]
        omega
      · simp [extAssign, ih, totalCount_addToCategory, List.count_cons, beq_iff_eq, h, h.symm]

theorem totalCount_clusterAssign (labels : Nat → Nat) (fs : List String) (i : Nat)
    (cats : List (String × List String)) (x : String) :
    totalCount (clusterAssign labels i fs cats) x = totalCount cats x + fs.count x := by
  induction fs generalizing i cats with
  | nil => simp [clusterAssign]
  | cons f fs ih =>
      rcases eq_or_ne x f with h | h
      · subst h
        simp [clusterAssign, ih, totalCount_addToCategory, List.count_cons]
        omega
      · simp [clusterAssign, ih, totalCount_addToCategory, List.count_cons, beq_iff_eq, h, h.symm]

/-- Claim C1: whenever `scan_desktop` succeeds (in either mode), its category
lists exactly partition the input listing: a filename of the listing occurs
exactly once across all lists, and any other string occurs nowhere. -/
theorem c1_scan_partitions (clusterRes : Except String (Nat → Nat))
    (files : List String) (cats : List (String × List String))
    (hnd : files.Nodup) (hok : scan_desktop clusterRes files = Except.ok cats)
    (x : String) :
    totalCount cats x = if x ∈ files then 1 else 0 := by
  have hcount : totalCount cats x = files.count x := by
    unfold scan_desktop at hok
    by_cases hlen : files.length > 3
    · simp [hlen] at hok
      cases clusterRes with
      | error e => simp at hok
      | ok labels =>
          simp at hok
          subst hok
          simp [clusterCategorize, totalCount_clusterAssign, totalCount_nil]
    · simp [hlen] at hok
      subst hok
      simp [extCategorize, totalCount_extAssign, totalCount_nil]
  rw [hcount]
  by_cases hm : x ∈ files
  · simp [hm, List.count_eq_one_of_mem hnd hm]
  · simp [hm, List.count_eq_zero_of_not_mem hm]

/-- Witness for C1 at a concrete input: a four-file listing takes the
clustering branch, and each file lands in exactly one category list. -/
theorem c1_scan_partitions_witness :
    totalCount (clusterCategorize (fun i => i % 2) ["a.txt", "b.png", "c.mp3", "d.pdf"])
      "c.mp3" = 1 := by
  have h := c1_scan_partitions (Except.ok (fun i => i % 2))
    ["a.txt", "b.png", "c.mp3", "d.pdf"]
    (clusterCategorize (fun i => i % 2) ["a.txt", "b.png", "c.mp3", "d.pdf"])
    (by decide) rfl "c.mp3"
  simpa using h

theorem countInCategory_nil (c x : String) : countInCategory [] c x = 0 := rfl

theorem countInCategory_cons (d : String) (fs : List String)
    (rest : List (String × List String)) (c x : String) :
    countInCategory ((d, fs) :: rest) c x =
      (if d = c then fs.count x else 0) + countInCategory rest c x := by
  by_cases h : d = c <;> simp [countInCategory, List.filter_cons, h]

theorem countInCategory_addToCategory (cats : List (String × List String))
    (c f c' x : String) :
    countInCategory (addToCategory cats c f) c' x =
      countInCategory cats c' x + if c = c' ∧ f = x then 1 else 0 := by
  induction cats with
  | nil =>
      simp [addToCategory, countInCategory_cons, countInCategory_nil,
        List.count_singleton, beq_iff_eq]
      by_cases h1 : c = c' <;> by_cases h2 : f = x <;> simp [h1, h2]
  | cons hd tl ih =>
      obtain ⟨d, fs⟩ := hd
      by_cases hdc : d = c
      · subst hdc
        simp [addToCategory, countInCategory_cons, List.count_append,
          List.count_singleton, beq_iff_eq]
        by_cases h1 : d = c' <;> by_cases h2 : f = x <;> simp [h1, h2] <;> omega
      · simp [addToCategory, hdc, countInCategory_cons, ih]
        omega

theorem countInCategory_extAssign (fs : List String) (cats : List (String × List String))
    (c x : String) :
    countInCategory (extAssign fs cats) c x =
      countInCategory cats c x + fs.countP (fun f => extCategory f == c && f == x) := by
  induction fs generalizing cats with
  | nil => simp [extAssign]
  | cons f fs ih =>
      simp [extAssign, ih, countInCategory_addToCategory, List.countP_cons, beq_iff_eq]
      by_cases h1 : extCategory f = c <;> by_cases h2 : f = x <;> simp [h1, h2] <;> omega

/-- Claim C3: under extension mode, each file of the listing ends up exactly
in the category that the fixed table assigns to its lowercased extension
(first matching table entry wins, no match means "Others"), and nowhere
else; in particular the four example files land where the spec says. -/
theorem c3_extension_lookup :
    (∀ files : List String, files.Nodup → ∀ x ∈ files, ∀ c,
        countInCategory (extCategorize files) c x = if c = extCategory x then 1 else 0) ∧
      extCategory "invoice.pdf" = "Documents" ∧
      extCategory "photo.png" = "Images" ∧
      extCategory "song.mp3" = "Music" ∧
      extCategory "notes.txt" = "Documents" := by
  refine ⟨?_, by decide, by decide, by decide, by decide⟩
  intro files hnd x hx c
  have h := countInCategory_extAssign files [] c x
  rw [extCategorize, h, countInCategory_nil, Nat.zero_add]
  by_cases hc : c = extCategory x
  · subst hc
    have hcongr : files.countP (fun f => extCategory f == extCategory x && f == x) =
        files.countP (fun f => f == x) := by
      refine List.countP_congr ?_
      intro f hf
      simp [beq_iff_eq]
      intro hfx
      rw [hfx]
    rw [hcongr, ← List.count_eq_countP, List.count_eq_one_of_mem hnd hx]
    simp
  · have hzero : files.countP (fun f => extCategory f == c && f == x) = 0 := by
      rw [List.countP_eq_zero]
      intro f hf
      simp [beq_iff_eq]
      intro h1 h2
      exact absurd h1.symm (by rw [h2] at * <;> exact hc)
    rw [hzero]
    simp [hc]

/-- Witness for C3 at a concrete input: in the three-file listing the file
"notes.txt" appears exactly once, namely under "Documents". -/
theorem c3_extension_lookup_witness :
    countInCategory (extCategorize ["invoice.pdf", "photo.png", "notes.txt"])
        "Documents" "notes.txt" = 1 := by
  have h := c3_extension_lookup.1 ["invoice.pdf", "photo.png", "notes.txt"]
    (by decide) "notes.txt" (by decide) "Documents"
  simpa using h

theorem names_addToCategory (cats : List (String × List String)) (c f : String) :
    (addToCategory cats c f).map Prod.fst =
      if c ∈ cats.map Prod.fst then cats.map Prod.fst
      else cats.map Prod.fst ++ [c] := by
  induction cats with
  | nil => simp [addToCategory]
  | cons hd tl ih =>
      obtain ⟨d, fs⟩ := hd
      by_cases hdc : d = c
      · subst hdc
        simp [addToCategory]
      · have hcd : ¬c = d := fun hh => hdc hh.symm
        simp [addToCategory, hdc, ih, hcd]
        by_cases hc : c ∈ tl.map Prod.fst <;> simp [hc, hcd]

theorem nodup_names_addToCategory (cats : List (String × List String)) (c f : String)
    (h : (cats.map Prod.fst).Nodup) : ((addToCategory cats c f).map Prod.fst).Nodup := by
  rw [names_addToCategory]
  by_cases hc : c ∈ cats.map Prod.fst
  · simpa [hc] using h
  · simp [hc, List.nodup_append, h]

theorem mem_names_addToCategory (cats : List (String × List String)) (c f n : String)
    (h : n ∈ (addToCategory cats c f).map Prod.fst) :
    n ∈ cats.map Prod.fst ∨ n = c := by
  rw [names_addToCategory] at h
  by_cases hc : c ∈ cats.map Prod.fst
  · rw [if_pos hc] at h
    exact Or.inl h
  · rw [if_neg hc] at h
    rcases List.mem_append.mp h with h1 | h1
    · exact Or.inl h1
    · exact Or.inr (by simpa using h1)

theorem nodup_names_clusterAssign (labels : Nat → Nat) (fs : List String) (i : Nat)
    (cats : List (String × List String)) (h : (cats.map Prod.fst).Nodup) :
    ((clusterAssign labels i fs cats).map Prod.fst).Nodup := by
  induction fs generalizing i cats with
  | nil => simpa [clusterAssign] using h
  | cons f fs ih =>
      exact ih (i + 1) _ (nodup_names_addToCategory _ _ _ h)

theorem mem_names_clusterAssign (labels : Nat → Nat) (fs : List String) (i : Nat)
    (cats : List (String × List String)) (n : String)
    (h : n ∈ (clusterAssign labels i fs cats).map Prod.fst) :
    n ∈ cats.map Prod.fst ∨
      ∃ j, i ≤ j ∧ j < i + fs.length ∧ n = clusterCatName (labels j) := by
  induction fs generalizing i cats with
  | nil =>
      exact Or.inl h
  | cons f fs ih =>
      rcases ih (i + 1) _ h with hmem | ⟨j, hj1, hj2, hj3⟩
      · rcases mem_names_addToCategory _ _ _ _ hmem with hmem' | hn
        · exact Or.inl hmem'
        · exact Or.inr ⟨i, Nat.le_refl i, by simp, hn⟩
      · exact Or.inr ⟨j, Nat.le_of_succ_le hj1, by simp at hj2 ⊢; omega, hj3⟩

theorem clusterCategorize_names (labels : Nat → Nat) (files : List String)
    (p : String × List String) (hp : p ∈ clusterCategorize labels files) :
    ∃ i, i < files.length ∧ p.1 = clusterCatName (labels i) := by
  have h := mem_names_clusterAssign labels files 0 [] p.1
    (List.mem_map.mpr ⟨p, hp, rfl⟩)
  rcases h with hmem | ⟨j, _, hj2, hj3⟩
  · simp at hmem
  · exact ⟨j, by simpa using hj2, hj3⟩

theorem clusterCategorize_length_le (labels : Nat → Nat) (files : List String)
    (hb : ∀ i < files.length, labels i < min 5 files.length) :
    (clusterCategorize labels files).length ≤ min 5 files.length := by
  set allowed : List String := (List.range (min 5 files.length)).map clusterCatName with hallowed
  have hsub : (clusterCategorize labels files).map Prod.fst ⊆ allowed := by
    intro n hn
    rcases mem_names_clusterAssign labels files 0 [] n hn with hmem | ⟨j, _, hj2, hj3⟩
    · simp at hmem
    · subst hj3
      refine List.mem_map.mpr ⟨labels j, List.mem_range.mpr ?_, rfl⟩
      exact hb j (by simpa using hj2)
  have hnd : ((clusterCategorize labels files).map Prod.fst).Nodup :=
    nodup_names_clusterAssign labels files 0 [] (by simp)
  have h1 : (clusterCategorize labels files).length =
      ((clusterCategorize labels files).map Prod.fst).length := by simp
  have h2 : ((clusterCategorize labels files).map Prod.fst).length =
      ((clusterCategorize labels files).map Prod.fst).toFinset.card :=
    (List.toFinset_card_of_nodup hnd).symm
  have hfin : ((clusterCategorize labels files).map Prod.fst).toFinset ⊆
      allowed.toFinset := by
    intro a ha
    rw [List.mem_toFinset] at ha ⊢
    exact hsub ha
  have h3 : ((clusterCategorize labels files).map Prod.fst).toFinset.card ≤
      allowed.toFinset.card :=
    Finset.card_le_card hfin
  have h4 : allowed.toFinset.card ≤ allowed.length := List.toFinset_card_le allowed
  have h5 : allowed.length = min 5 files.length := by simp [hallowed]
  omega

/-- Claim C4: the categorization mode is selected purely by the file count:
at most 3 files runs the extension branch, more than 3 runs the clustering
branch, whose output has at most `min 5 (number of files)` categories
(given KMeans labels below `n_clusters = min(5, len(files))`), all named
generically "Category (label+1)". -/
theorem c4_mode_selection (clusterRes : Except String (Nat → Nat)) (files : List String) :
    (files.length ≤ 3 → scan_desktop clusterRes files = Except.ok (extCategorize files)) ∧
    (∀ labels : Nat → Nat, files.length > 3 → clusterRes = Except.ok labels →
      scan_desktop clusterRes files = Except.ok (clusterCategorize labels files) ∧
      ((∀ i < files.length, labels i < min 5 files.length) →
        (clusterCategorize labels files).length ≤ min 5 files.length) ∧
      (∀ p ∈ clusterCategorize labels files, ∃ i, i < files.length ∧
        p.1 = clusterCatName (labels i))) := by
  constructor
  · intro hlen
    have hno : ¬files.length > 3 := by omega
    simp [scan_desktop, hno]
  · intro labels hlen hres
    subst hres
    refine ⟨by simp [scan_desktop, hlen], clusterCategorize_length_le labels files,
      clusterCategorize_names labels files⟩

/-- Witness for C4 at concrete inputs: a two-file listing takes the
extension branch; a five-file listing takes the clustering branch and
yields at most five categories. -/
theorem c4_mode_selection_witness :
    scan_desktop (Except.error "unused") ["notes.txt", "photo.png"] =
        Except.ok (extCategorize ["notes.txt", "photo.png"]) ∧
      scan_desktop (Except.ok (fun i => i % 5))
          ["report1.txt", "report2.txt", "holiday.png", "track01.mp3", "intro.mp4"] =
        Except.ok (clusterCategorize (fun i => i % 5)
          ["report1.txt", "report2.txt", "holiday.png", "track01.mp3", "intro.mp4"]) ∧
      (clusterCategorize (fun i => i % 5)
          ["report1.txt", "report2.txt", "holiday.png", "track01.mp3", "intro.mp4"]).length ≤
        min 5 5 := by
  have h1 := (c4_mode_selection (Except.error "unused") ["notes.txt", "photo.png"]).1
    (by decide)
  have h2 := (c4_mode_selection (Except.ok (fun i => i % 5))
    ["report1.txt", "report2.txt", "holiday.png", "track01.mp3", "intro.mp4"]).2
    (fun i => i % 5) (by decide) rfl
  exact ⟨h1, h2.1, by simpa using h2.2.1 (by decide)⟩

/-- The exception raised by a failing `shutil.move` (line 108), as it
reaches the caller of `organize_files`: it identifies the file whose move
failed and the failure reason. -/
structure MoveFailed where
  filename : String
  reason : String
deriving DecidableEq, Repr

/-- The observable state threaded through an organize pass: the moves
completed so far (filename, category), oldest first, and the history log
at the record level. -/
structure OrganizeState where
  moved : List (String × String)
  history : List HistoryRecord
deriving Repr

/-- QuickShelf.log_action (lines 113-121) at the record level: append one
record with the given timestamp, the literal action "moved". -/
def log_action (history : List HistoryRecord) (now : Int) (filename category : String) :
    List HistoryRecord :=
  history ++ [⟨now, filename, category, "moved"⟩]

/-- The inner `for file in files` loop of `organize_files` (lines 105-111):
move each file into the category folder (`mv f = none` means `shutil.move`
succeeded, `some reason` that it raised), then log the move.  A raised
exception stops the loop (and, propagating, the whole pass) at once: the
failing file is neither recorded nor are later files touched. -/
def moveFiles (mv : String → Option String) (now : Int) (category : String) :
    List String → OrganizeState → OrganizeState × Option MoveFailed
  | [], st => (st, none)
  | f :: fs, st =>
      match mv f with
      | some reason => (st, some ⟨f, reason⟩)
      | none =>
          moveFiles mv now category fs
            ⟨st.moved ++ [(f, category)], log_action st.history now f category⟩

/-- QuickShelf.organize_files (lines 96-111): iterate the categories in
order (folder creation has no observable effect in this model), moving and
logging each listed file; an exception from a move propagates immediately,
ending the pass. -/
def organize_files (mv : String → Option String) (now : Int) :
    List (String × List String) → OrganizeState → OrganizeState × Option MoveFailed
  | [], st => (st, none)
  | (category, files) :: rest, st =>
      match moveFiles mv now category files st with
      | (st', none) => organize_files mv now rest st'
      | (st', some e) => (st', some e)

/-- One organize pass as triggered by the presentation shell: the move
oracle for that pass, the wall-clock instant, and the scanned categories. -/
structure Pass where
  mv : String → Option String
  now : Int
  cats : List (String × List String)

/-- A sequence of organize passes run one after the other (partial effects
of a failed pass persist, as the log file and moved files do). -/
def runPasses : List Pass → OrganizeState → OrganizeState
  | [], st => st
  | p :: ps, st => runPasses ps (organize_files p.mv p.now p.cats st).1

theorem moveFiles_extends (mv : String → Option String) (now : Int) (category : String)
    (fs : List String) (st : OrganizeState) :
    ∃ nm : List (String × String),
      (moveFiles mv now category fs st).1.moved = st.moved ++ nm ∧
      (moveFiles mv now category fs st).1.history =
        st.history ++ nm.map (fun m => HistoryRecord.mk now m.1 m.2 "moved") := by
  induction fs generalizing st with
  | nil => exact ⟨[], by simp [moveFiles], by simp [moveFiles]⟩
  | cons f fs ih =>
      cases hmv : mv f with
      | some reason => exact ⟨[], by simp [moveFiles, hmv], by simp [moveFiles, hmv]⟩
      | none =>
          obtain ⟨nm, h1, h2⟩ :=
            ih ⟨st.moved ++ [(f, category)], log_action st.history now f category⟩
          refine ⟨(f, category) :: nm, ?_, ?_⟩
          · simp only [moveFiles, hmv]
            rw [h1]
            simp
          · simp only [moveFiles, hmv]
            rw [h2]
            simp [log_action]

theorem organize_files_extends (mv : String → Option String) (now : Int)
    (cats : List (String × List String)) (st : OrganizeState) :
    ∃ nm : List (String × String),
      (organize_files mv now cats st).1.moved = st.moved ++ nm ∧
      (organize_files mv now cats st).1.history =
        st.history ++ nm.map (fun m => HistoryRecord.mk now m.1 m.2 "moved") := by
  induction cats generalizing st with
  | nil => exact ⟨[], by simp [organize_files], by simp [organize_files]⟩
  | cons hd rest ih =>
      obtain ⟨category, files⟩ := hd
      obtain ⟨nm1, hm1, hh1⟩ := moveFiles_extends mv now category files st
      rcases hmf : moveFiles mv now category files st with ⟨st', err⟩
      rw [hmf] at hm1 hh1
      cases err with
      | none =>
          obtain ⟨nm2, hm2, hh2⟩ := ih st'
          refine ⟨nm1 ++ nm2, ?_, ?_⟩
          · simp only [organize_files, hmf]
            rw [hm2, hm1, List.append_assoc]
          · simp only [organize_files, hmf]
            rw [hh2, hh1, List.map_append, List.append_assoc]
      | some e =>
          refine ⟨nm1, ?_, ?_⟩
          · simp only [organize_files, hmf]
            exact hm1
          · simp only [organize_files, hmf]
            exact hh1

theorem runPasses_count (passes : List Pass) (st : OrganizeState)
    (hst : st.history.countP (fun r => r.action == "moved") = st.moved.length) :
    (runPasses passes st).history.countP (fun r => r.action == "moved") =
      (runPasses passes st).moved.length := by
  induction passes generalizing st with
  | nil => simpa [runPasses] using hst
  | cons p ps ih =>
      rw [runPasses]
      apply ih
      obtain ⟨nm, h1, h2⟩ := organize_files_extends p.mv p.now p.cats st
      rw [h1, h2]
      simp [List.countP_append, List.countP_map, Function.comp_def, hst]

/-- Claim C2: each organize pass appends exactly one HistoryRecord per
successfully moved file, carrying that pass's current timestamp and the
action literal "moved"; consequently, over any sequence of passes started
from a fresh state, the number of records with action "moved" equals the
cumulative number of files ever moved. -/
theorem c2_one_record_per_move :
    (∀ (mv : String → Option String) (now : Int) (cats : List (String × List String))
        (st : OrganizeState),
      ∃ nm : List (String × String),
        (organize_files mv now cats st).1.moved = st.moved ++ nm ∧
        (organize_files mv now cats st).1.history =
          st.history ++ nm.map (fun m => HistoryRecord.mk now m.1 m.2 "moved")) ∧
    (∀ passes : List Pass,
      (runPasses passes ⟨[], []⟩).history.countP (fun r => r.action == "moved") =
        (runPasses passes ⟨[], []⟩).moved.length) := by
  exact ⟨organize_files_extends, fun passes => runPasses_count passes ⟨[], []⟩ (by simp)⟩

/-- The (filename, category) pairs that one organize pass attempts, in the
iteration order of the nested loops of `organize_files`. -/
def flattenCats (cats : List (String × List String)) : List (String × String) :=
  cats.flatMap (fun p => p.2.map (fun f => (f, p.1)))

theorem moveFiles_all_ok (mv : String → Option String) (now : Int) (category : String)
    (fs : List String) (st : OrganizeState) (h : ∀ f ∈ fs, mv f = none) :
    moveFiles mv now category fs st =
      (⟨st.moved ++ fs.map (fun f => (f, category)),
        st.history ++ fs.map (fun f => HistoryRecord.mk now f category "moved")⟩, none) := by
  induction fs generalizing st with
  | nil => simp [moveFiles]
  | cons f fs ih =>
      have hf : mv f = none := h f (by simp)
      rw [moveFiles]
      simp only [hf]
      rw [ih _ (fun g hg => h g (by simp [hg]))]
      simp [log_action]

theorem moveFiles_fails (mv : String → Option String) (now : Int) (category : String)
    (pre : List String) (f : String) (post : List String) (st : OrganizeState)
    (r : String) (hpre : ∀ g ∈ pre, mv g = none) (hf : mv f = some r) :
    moveFiles mv now category (pre ++ f :: post) st =
      (⟨st.moved ++ pre.map (fun g => (g, category)),
        st.history ++ pre.map (fun g => HistoryRecord.mk now g category "moved")⟩,
       some ⟨f, r⟩) := by
  induction pre generalizing st with
  | nil => simp [moveFiles, hf]
  | cons g pre ih =>
      have hg : mv g = none := hpre g (by simp)
      rw [List.cons_append, moveFiles]
      simp only [hg]
      rw [ih _ (fun g' hg' => hpre g' (by simp [hg']))]
      simp [log_action]

theorem organize_files_append_ok (mv : String → Option String) (now : Int)
    (cs1 cs2 : List (String × List String)) (st : OrganizeState)
    (h : ∀ p ∈ flattenCats cs1, mv p.1 = none) :
    organize_files mv now (cs1 ++ cs2) st =
      organize_files mv now cs2
        ⟨st.moved ++ flattenCats cs1,
         st.history ++ (flattenCats cs1).map (fun m => HistoryRecord.mk now m.1 m.2 "moved")⟩ := by
  induction cs1 generalizing st with
  | nil => simp [flattenCats]
  | cons hd rest ih =>
      obtain ⟨category, files⟩ := hd
      have hfiles : ∀ f ∈ files, mv f = none := by
        intro f hf
        exact h (f, category) (by simp [flattenCats, hf])
      have hrest : ∀ p ∈ flattenCats rest, mv p.1 = none := by
        intro p hp
        apply h
        simp [flattenCats] at hp ⊢
        exact Or.inr hp
      rw [List.cons_append, organize_files]
      simp only [moveFiles_all_ok mv now category files st hfiles]
      rw [ih _ hrest]
      simp [flattenCats, List.map_append, List.append_assoc, Function.comp_def]

/-- Claim C6: if, during an organize pass, the move of file `f` raises
(after the earlier categories and the earlier files of its category moved
fine), the pass stops at once: the surfaced error is exactly
`MoveFailed f r`, the moves performed are exactly the ones before `f`, the
appended records are exactly theirs, and (when `f` was not among them and
not already in the log) no HistoryRecord anywhere in the final log names
`f`. -/
theorem c6_move_failure_halts (mv : String → Option String) (now : Int)
    (preCats : List (String × List String)) (category : String)
    (preF : List String) (f : String) (postF : List String)
    (postCats : List (String × List String)) (st : OrganizeState) (r : String)
    (hpre : ∀ p ∈ flattenCats preCats, mv p.1 = none)
    (hpreF : ∀ g ∈ preF, mv g = none)
    (hf : mv f = some r)
    (hfresh1 : f ∉ (flattenCats preCats).map Prod.fst)
    (hfresh2 : f ∉ preF)
    (hfresh3 : ∀ hr ∈ st.history, hr.filename ≠ f) :
    organize_files mv now (preCats ++ (category, preF ++ f :: postF) :: postCats) st =
      (⟨st.moved ++ (flattenCats preCats ++ preF.map (fun g => (g, category))),
        st.history ++ (flattenCats preCats ++ preF.map (fun g => (g, category))).map
          (fun m => HistoryRecord.mk now m.1 m.2 "moved")⟩,
       some ⟨f, r⟩) ∧
    (∀ hr ∈ (organize_files mv now
        (preCats ++ (category, preF ++ f :: postF) :: postCats) st).1.history,
      hr.filename ≠ f) := by
  have heq : organize_files mv now (preCats ++ (category, preF ++ f :: postF) :: postCats) st =
      (⟨st.moved ++ (flattenCats preCats ++ preF.map (fun g => (g, category))),
        st.history ++ (flattenCats preCats ++ preF.map (fun g => (g, category))).map
          (fun m => HistoryRecord.mk now m.1 m.2 "moved")⟩,
       some ⟨f, r⟩) := by
    rw [organize_files_append_ok mv now preCats _ st hpre, organize_files]
    simp only [moveFiles_fails mv now category preF f postF _ r hpreF hf]
    simp [List.map_append, List.append_assoc]
  refine ⟨heq, ?_⟩
  rw [heq]
  intro hr hhr
  simp only [List.mem_append] at hhr
  rcases hhr with hold | hnew
  · exact hfresh3 hr hold
  · rcases List.mem_map.mp hnew with ⟨m, hm, hrec⟩
    subst hrec
    simp only [List.mem_append] at hm
    rcases hm with hm1 | hm2
    · intro hcontra
      exact hfresh1 (List.mem_map.mpr ⟨m, hm1, hcontra⟩)
    · rcases List.mem_map.mp hm2 with ⟨g, hg, hgm⟩
      intro hcontra
      rw [← hgm] at hcontra
      simp at hcontra
      exact hfresh2 (hcontra ▸ hg)

/-- Witness for C6 at a concrete input: the move of "b.png" fails after
"a.txt" moved; the error carries the filename and reason, only "a.txt" was
moved and logged, and "c.mp3" was never reached. -/
theorem c6_move_failure_halts_witness :
    organize_files (fun s => if s = "b.png" then some "destination exists" else none) 11
        [("Documents", ["a.txt"]), ("Images", ["b.png"]), ("Music", ["c.mp3"])]
        ⟨[], []⟩ =
      (⟨[("a.txt", "Documents")],
        [HistoryRecord.mk 11 "a.txt" "Documents" "moved"]⟩,
       some ⟨"b.png", "destination exists"⟩) := by
  have h := c6_move_failure_halts
    (fun s => if s = "b.png" then some "destination exists" else none) 11
    [("Documents", ["a.txt"])] "Images" [] "b.png" [] [("Music", ["c.mp3"])]
    ⟨[], []⟩ "destination exists"
    (by decide) (by decide) (by decide) (by decide) (by decide) (by simp)
  simpa [flattenCats] using h.1

/-- QuickShelf.get_recent_files (lines 123-130) at the record level: a
missing log file yields []; otherwise pandas keeps the rows with
`timestamp > datetime.now() - Timedelta(days=days)` — a strict lower bound
and no upper bound — in file (storage) order.  `now` is the
`datetime.now()` instant and `since` the `Timedelta`. -/
def get_recent_files (logFile : Option (List HistoryRecord)) (now since : Int) :
    List HistoryRecord :=
  match logFile with
  | none => []
  | some recs => recs.filter (fun r => now - since < r.timestamp)

/-- Counterexample to claim C5: with `now = 7` and `since = 7`, a record at
timestamp 0 lies exactly on the `now - since` boundary of the claimed
closed interval, yet the code drops it; and a record at timestamp 9 lies
above `now`, outside the claimed interval, yet the code returns it. -/
theorem c5_window_counterexample :
    ((7 : Int) - 7 ≤ (HistoryRecord.mk 0 "a.txt" "Documents" "moved").timestamp ∧
      (HistoryRecord.mk 0 "a.txt" "Documents" "moved").timestamp ≤ 7 ∧
      HistoryRecord.mk 0 "a.txt" "Documents" "moved" ∉
        get_recent_files (some [HistoryRecord.mk 0 "a.txt" "Documents" "moved"]) 7 7) ∧
    (¬(HistoryRecord.mk 9 "b.png" "Images" "moved").timestamp ≤ 7 ∧
      HistoryRecord.mk 9 "b.png" "Images" "moved" ∈
        get_recent_files (some [HistoryRecord.mk 9 "b.png" "Images" "moved"]) 7 7) := by
  decide

/-- Claim C5 as amended: `get_recent_files` returns exactly the stored
records with timestamp strictly greater than `now - since` (the boundary
record at exactly `now - since` is excluded, and no upper-bound check is
applied), in storage order; a missing log yields the empty list. -/
theorem c5_recent_strict_window (recs : List HistoryRecord) (now since : Int) :
    (∀ r, r ∈ get_recent_files (some recs) now since ↔
        r ∈ recs ∧ now - since < r.timestamp) ∧
    (get_recent_files (some recs) now since).Sublist recs ∧
    get_recent_files none now since = [] := by
  refine ⟨?_, List.filter_sublist _, rfl⟩
  intro r
  simp [get_recent_files, List.mem_filter]

/-- Counterexample to claim C7: four one-character filenames make
TfidfVectorizer raise ("empty vocabulary"); `scan_desktop` has no
try/except around the clustering block, so the error comes out of the
scan instead of any fall back to extension-based categorization. -/
theorem c7_no_fallback_counterexample :
    scan_desktop (Except.error "empty vocabulary") ["1", "2", "3", "4"] =
        Except.error "empty vocabulary" ∧
      scan_desktop (Except.error "empty vocabulary") ["1", "2", "3", "4"] ≠
        Except.ok (extCategorize ["1", "2", "3", "4"]) := by
  refine ⟨rfl, ?_⟩
  intro h
  simp [scan_desktop] at h

/-- Claim C7 as amended: when the file count exceeds 3, a clustering
failure propagates out of `scan_desktop` unchanged; extension-based
categorization runs only for listings of at most 3 files, not as an error
fallback. -/
theorem c7_cluster_error_propagates (e : String) (files : List String)
    (h : files.length > 3) :
    scan_desktop (Except.error e) files = Except.error e := by
  simp [scan_desktop, h]

/-- Witness for the amended C7 at a concrete input. -/
theorem c7_cluster_error_propagates_witness :
    scan_desktop (Except.error "empty vocabulary") ["a1.txt", "a2.txt", "a3.txt", "a4.txt"] =
      Except.error "empty vocabulary" :=
  c7_cluster_error_propagates "empty vocabulary"
    ["a1.txt", "a2.txt", "a3.txt", "a4.txt"] (by decide)

/-- A value stored in the preferences mapping (the JSON blob holds the
booleans `auto_organize` / `show_notifications`; strings are allowed for
unrecognized keys). -/
inductive PrefValue where
  | boolVal : Bool → PrefValue
  | strVal : String → PrefValue
deriving DecidableEq, Repr

/-- The preferences mapping, key to value in insertion order. -/
abbrev Preferences := List (String × PrefValue)

/-- QuickShelf.load_preferences (lines 35-47).  `self.preferences` starts
as the empty dict; when the preferences file exists (`disk = some s`) the
code runs `json.load` — the abstract external `parse` — inside a bare
try/except, so a parse error is swallowed and the mapping stays empty; a
missing file (`disk = none`) also leaves it empty.  No error ever reaches
the caller: the return type carries none. -/
def load_preferences (parse : String → Except Unit Preferences)
    (disk : Option String) : Preferences :=
  match disk with
  | none => []
  | some s =>
      match parse s with
      | Except.ok p => p
      | Except.error _ => []

/-- QuickShelf.save_preferences (lines 49-54): overwrite the preferences
file with the serialized mapping (`dumps` is the abstract external
`json.dump`); the new disk contents replace whatever was there. -/
def save_preferences (dumps : Preferences → String) (prefs : Preferences) :
    Option String :=
  some (dumps prefs)

/-- Claim C8: the load operation returns the empty mapping whenever the
preferences file is missing or its contents fail to parse; the parse
error is swallowed locally (the function is total into `Preferences`, so
nothing is surfaced). -/
theorem c8_load_swallows (parse : String → Except Unit Preferences)
    (disk : Option String) :
    (disk = none → load_preferences parse disk = []) ∧
    (∀ s e, disk = some s → parse s = Except.error e →
      load_preferences parse disk = []) := by
  constructor
  · intro h
    subst h
    rfl
  · intro s e hdisk hparse
    subst hdisk
    simp [load_preferences, hparse]

/-- Witness for C8 at concrete inputs: a missing file and a malformed
file both load as the empty mapping. -/
theorem c8_load_swallows_witness :
    load_preferences (fun _ => Except.error ()) none = [] ∧
    load_preferences (fun _ => Except.error ()) (some "not json") = [] :=
  ⟨(c8_load_swallows (fun _ => Except.error ()) none).1 rfl,
   (c8_load_swallows (fun _ => Except.error ()) (some "not json")).2
     "not json" () rfl rfl⟩

/-- Claim C9: for any persisted state, saving the freshly loaded mapping
and loading again returns the same mapping.  The hypothesis instantiates,
at the one value involved, the documented round-trip property of the
external `json` serializer (loads after dumps returns an equal value);
`save(load())` then changes nothing observable. -/
theorem c9_save_load_idempotent (dumps : Preferences → String)
    (parse : String → Except Unit Preferences) (disk : Option String)
    (hrt : parse (dumps (load_preferences parse disk)) =
      Except.ok (load_preferences parse disk)) :
    load_preferences parse (save_preferences dumps (load_preferences parse disk)) =
      load_preferences parse disk := by
  show (match parse (dumps (load_preferences parse disk)) with
    | Except.ok p => p
    | Except.error _ => []) = load_preferences parse disk
  rw [hrt]

/-- Witness for C9 at a concrete persisted state: a stored mapping with
`auto_organize = true` survives save-after-load unchanged. -/
theorem c9_save_load_idempotent_witness :
    load_preferences
        (fun s => if s = "blob" then Except.ok [("auto_organize", PrefValue.boolVal true)]
          else Except.error ())
        (save_preferences (fun _ => "blob")
          (load_preferences
            (fun s => if s = "blob" then Except.ok [("auto_organize", PrefValue.boolVal true)]
              else Except.error ())
            (some "blob"))) =
      load_preferences
        (fun s => if s = "blob" then Except.ok [("auto_organize", PrefValue.boolVal true)]
          else Except.error ())
        (some "blob") :=
  c9_save_load_idempotent (fun _ => "blob")
    (fun s => if s = "blob" then Except.ok [("auto_organize", PrefValue.boolVal true)]
      else Except.error ())
    (some "blob") (by simp [load_preferences])

/-- One row of the history CSV at the text level: the four fields of a
line as written and as pandas splits them back. -/
structure CsvRecord where
  timestamp : List Char
  filename : List Char
  category : List Char
  action : List Char
deriving DecidableEq, Repr

/-- The line `f"{timestamp},{filename},{category},moved"` that
`log_action` writes (line 121): the fields go in verbatim, with no
escaping or quoting of commas. -/
def log_line (t f c : List Char) : List Char :=
  t ++ ',' :: f ++ ',' :: c ++ ',' :: ['m', 'o', 'v', 'e', 'd']

/-- Comma-splitting of one line, as pandas `read_csv` does on the
unquoted lines this program writes. -/
def splitOnComma : List Char → List (List Char)
  | [] => [[]]
  | c :: cs =>
      if c = ',' then [] :: splitOnComma cs
      else
        match splitOnComma cs with
        | [] => [[c]]
        | g :: gs => (c :: g) :: gs

/-- One line parsed against the four-column header
`timestamp,filename,category,action`: pandas accepts exactly four fields
and raises on any other count. -/
def parse_line (l : List Char) : Option CsvRecord :=
  match splitOnComma l with
  | [t, f, c, a] => some ⟨t, f, c, a⟩
  | _ => none

/-- The body of the history file parsed line by line; a single malformed
line makes the pandas read (and so the whole query) fail. -/
def parse_history : List (List Char) → Option (List CsvRecord)
  | [] => some []
  | l :: ls =>
      match parse_line l, parse_history ls with
      | some r, some rs => some (r :: rs)
      | _, _ => none

/-- QuickShelf.log_action at the file level: append the formatted line to
the body (the header line is kept implicit; each body line corresponds to
one `f.write`). A field containing a newline would break this
line-per-record representation, which is why claim C10 restricts fields
to newline-free strings. -/
def log_action_line (lines : List (List Char)) (t f c : List Char) :
    List (List Char) :=
  lines ++ [log_line t f c]

/-- QuickShelf.get_recent_files at the file level: parse all lines, then
keep the records inside the window (`inWindow` abstracts the timestamp
comparison done after `pd.to_datetime`). -/
def get_recent_csv (lines : List (List Char)) (inWindow : List Char → Bool) :
    Option (List CsvRecord) :=
  match parse_history lines with
  | none => none
  | some recs => some (recs.filter (fun r => inWindow r.timestamp))

theorem splitOnComma_no_comma (xs : List Char) (h : ',' ∉ xs) :
    splitOnComma xs = [xs] := by
  induction xs with
  | nil => rfl
  | cons c cs ih =>
      have hc : ¬c = ',' := by
        intro hh
        exact h (by simp [hh])
      rw [splitOnComma]
      simp only [hc, if_false]
      rw [ih (fun hh => h (by simp [hh]))]

theorem splitOnComma_append (xs ys : List Char) (h : ',' ∉ xs) :
    splitOnComma (xs ++ ',' :: ys) = xs :: splitOnComma ys := by
  induction xs with
  | nil => simp [splitOnComma]
  | cons c cs ih =>
      have hc : ¬c = ',' := by
        intro hh
        exact h (by simp [hh])
      rw [List.cons_append, splitOnComma]
      simp only [hc, if_false]
      rw [ih (fun hh => h (by simp [hh]))]

theorem parse_log_line (t f c : List Char) (ht : ',' ∉ t) (hf : ',' ∉ f)
    (hc : ',' ∉ c) :
    parse_line (log_line t f c) = some ⟨t, f, c, ['m', 'o', 'v', 'e', 'd']⟩ := by
  have hs : splitOnComma (log_line t f c) = [t, f, c, ['m', 'o', 'v', 'e', 'd']] := by
    simp only [log_line, List.cons_append, List.append_assoc]
    rw [splitOnComma_append _ _ ht, splitOnComma_append _ _ hf,
      splitOnComma_append _ _ hc, splitOnComma_no_comma _ (by decide)]
  simp [parse_line, hs]

theorem parse_history_snoc (lines : List (List Char)) (l : List Char)
    (recs : List CsvRecord) (r : CsvRecord) (h : parse_history lines = some recs)
    (hl : parse_line l = some r) :
    parse_history (lines ++ [l]) = some (recs ++ [r]) := by
  induction lines generalizing recs with
  | nil =>
      simp [parse_history] at h
      subst h
      simp [parse_history, hl]
  | cons l0 ls ih =>
      rcases hp0 : parse_line l0 with _ | r0 <;> rcases hps : parse_history ls with _ | rs <;>
        rw [parse_history, hp0, hps] at h <;> simp at h
      subst h
      rw [List.cons_append, parse_history, hp0, ih rs hps]
      rfl

/-- Claim C10: the history append/query round-trip is faithful exactly
for comma-free fields.  Appending a record whose timestamp, filename and
category contain no comma (and no newline, as the line-based file format
requires) and querying with a window admitting it returns, after the
previously stored records, a record with those very fields and action
"moved"; and for the filename "a,b" (a comma), the written line has five
fields, so the subsequent query fails outright instead of returning the
record. -/
theorem c10_csv_round_trip :
    (∀ (lines : List (List Char)) (recs : List CsvRecord) (t f c : List Char)
        (win : List Char → Bool),
      parse_history lines = some recs →
      ',' ∉ t → ',' ∉ f → ',' ∉ c →
      '\n' ∉ t → '\n' ∉ f → '\n' ∉ c →
      win t = true →
      get_recent_csv (log_action_line lines t f c) win =
        some (recs.filter (fun r => win r.timestamp) ++
          [⟨t, f, c, ['m', 'o', 'v', 'e', 'd']⟩])) ∧
    get_recent_csv (log_action_line [] ['0'] ['a', ',', 'b'] ['c'])
      (fun _ => true) = none := by
  constructor
  · intro lines recs t f c win hlines ht hf hc _ _ _ hwin
    rw [get_recent_csv, log_action_line,
      parse_history_snoc lines _ recs _ hlines (parse_log_line t f c ht hf hc)]
    simp [hwin]
  · decide

/-- Witness for C10 at a concrete input: appending a record for
"a.txt" / "D" and querying returns exactly that record, fields intact. -/
theorem c10_csv_round_trip_witness :
    get_recent_csv (log_action_line [] ['9'] ['a', '.', 't', 'x', 't'] ['D'])
        (fun _ => true) =
      some [⟨['9'], ['a', '.', 't', 'x', 't'], ['D'], ['m', 'o', 'v', 'e', 'd']⟩] := by
  have h := c10_csv_round_trip.1 [] [] ['9'] ['a', '.', 't', 'x', 't'] ['D']
    (fun _ => true) rfl (by decide) (by decide) (by decide) (by decide) (by decide)
    (by decide) rfl
  simpa using h
